import Mathlib

/-!
Verification of the quadrature routines of the phys305 notebook
(`src/docs/08/notes.ipynb`): `RiemannSum`, `trapezoidal`, `simpson`, `bode`.

The Python code is embedded shallowly over exact rationals (ℚ):
* a Python exception is modelled with `PyError` and `Except`;
* `np.linspace(a, b, num, retstep=True)` is modelled by `linspace`; the
  `nan` step it returns when `num ≤ 1` is modelled as `none`;
* Python `//` (floor division on ints) is modelled with `Int.fdiv`;
* `range(N)` for ints is modelled with `List.range N.toNat` (empty for
  negative `N`, as in Python).
-/

namespace Phys305

/-- Python exceptions the embedded code can raise. -/
inductive PyError where
  | zeroDivisionError
  | indexError
  | valueError
deriving DecidableEq, Repr

/-- `np.linspace a b num` with `retstep=True`: `num` equally spaced points
from `a` to `b` inclusive, plus the step.  `num < 0` raises `ValueError`;
for `num ∈ {0, 1}` numpy returns a `nan` step, modelled as `none`. -/
def linspace (a b : ℚ) (num : ℤ) : Except PyError (List ℚ × Option ℚ) :=
  if num < 0 then Except.error PyError.valueError
  else if num < 2 then Except.ok (List.replicate num.toNat a, none)
  else Except.ok ((List.range num.toNat).map (fun i : ℕ => a + (b - a) * i / ((num : ℚ) - 1)),
    some ((b - a) / ((num : ℚ) - 1)))

/-- The notebook's `RiemannSum(f, N, a, b, t)`.  The step `D = (b - a) / N`
is computed first (`ZeroDivisionError` when `N = 0`), then `t[0]` is read
(`IndexError` on the empty string); the sample points depend only on the
first character of `t`: `'l'` → left, `'r'` → right, anything else → middle. -/
def RiemannSum (f : ℚ → ℚ) (N : ℤ) (a b : ℚ) (t : String) : Except PyError ℚ :=
  if N = 0 then Except.error PyError.zeroDivisionError
  else
    let D : ℚ := (b - a) / (N : ℚ)
    match t.data with
    | [] => Except.error PyError.indexError
    | c :: _ =>
      let X : List ℚ :=
        if c = 'l' then (List.range N.toNat).map (fun i : ℕ => D * i + a)
        else if c = 'r' then (List.range N.toNat).map (fun i : ℕ => D * ((i : ℚ) + 1) + a)
        else (List.range N.toNat).map (fun i : ℕ => D * ((i : ℚ) + 1/2) + a)
      Except.ok ((X.map f).sum * D)

/-- The notebook's `trapezoidal(f, N, a, b)`:
`X, D = np.linspace(a, b, N+1, retstep=True)` then
`np.sum(f(X[1:]) + f(X[:-1])) * 0.5 * D`.  A `nan` step (`N ≤ 0`)
makes the result `nan`, modelled as `none`. -/
def trapezoidal (f : ℚ → ℚ) (N : ℤ) (a b : ℚ) : Except PyError (Option ℚ) :=
  match linspace a b (N + 1) with
  | Except.error e => Except.error e
  | Except.ok (X, D) =>
    Except.ok (D.map (fun d =>
      (((X.drop 1).zip X.dropLast).map (fun p => f p.1 + f p.2)).sum * (1/2 : ℚ) * d))

/-- The notebook's `simpson(f, N, a, b)`: `N // 2` loop iterations, each
adding `D * (f(X[2i]) + 4 f(X[2i+1]) + f(X[2i+2])) / 3`.  The loop body
only runs when `N ≥ 2`, where the step is `some` and every index is in
range, so `Option.getD`/`List.getD` defaults are never exercised. -/
def simpson (f : ℚ → ℚ) (N : ℤ) (a b : ℚ) : Except PyError ℚ :=
  match linspace a b (N + 1) with
  | Except.error e => Except.error e
  | Except.ok (X, D) =>
    let d : ℚ := D.getD 0
    Except.ok (((List.range (Int.fdiv N 2).toNat).map (fun i =>
      d * (f (X.getD (2 * i) 0) + 4 * f (X.getD (2 * i + 1) 0)
         + f (X.getD (2 * i + 2) 0)) / 3)).sum)

/-- The notebook's `bode(f, N, a, b)`: `N // 4` loop iterations, each adding
`D * (14 f(X[4i]) + 64 f(X[4i+1]) + 24 f(X[4i+2]) + 64 f(X[4i+3]) + 14 f(X[4i+4])) / 45`. -/
def bode (f : ℚ → ℚ) (N : ℤ) (a b : ℚ) : Except PyError ℚ :=
  match linspace a b (N + 1) with
  | Except.error e => Except.error e
  | Except.ok (X, D) =>
    let d : ℚ := D.getD 0
    Except.ok (((List.range (Int.fdiv N 4).toNat).map (fun i =>
      d * (14 * f (X.getD (4 * i) 0) + 64 * f (X.getD (4 * i + 1) 0)
         + 24 * f (X.getD (4 * i + 2) 0) + 64 * f (X.getD (4 * i + 3) 0)
         + 14 * f (X.getD (4 * i + 4) 0)) / 45)).sum)

/-- The `k`-th of the `n+1` equally spaced abscissas `np.linspace a b (n+1)`
produces: `a + (b - a) * k / n`. -/
def gridPoint (a b : ℚ) (n k : ℕ) : ℚ := a + (b - a) * k / (n : ℚ)

/-! ### Helper lemmas -/

lemma sum_map_range (g : ℕ → ℚ) (n : ℕ) :
    ((List.range n).map g).sum = ∑ i in Finset.range n, g i := by
  induction n with
  | zero => simp
  | succ k ih => simp [List.range_succ, Finset.sum_range_succ, ih]

lemma getD_range_map (g : ℕ → ℚ) (n k : ℕ) (h : k < n) :
    ((List.range n).map g).getD k 0 = g k := by
  rw [List.getD_eq_getElem?_getD]
  simp [List.getElem?_map, List.getElem?_range h]

lemma linspace_succ (a b : ℚ) (n : ℕ) (h : 1 ≤ n) :
    linspace a b ((n : ℤ) + 1) =
      Except.ok ((List.range (n + 1)).map (gridPoint a b n), some ((b - a) / (n : ℚ))) := by
  unfold linspace
  rw [if_neg (by omega), if_neg (by omega)]
  have ht : ((n : ℤ) + 1).toNat = n + 1 := by omega
  have hc : (((n : ℤ) + 1 : ℤ) : ℚ) - 1 = (n : ℚ) := by push_cast; ring
  rw [ht, hc]
  rfl

lemma trapezoidal_eval (f : ℚ → ℚ) (a b : ℚ) (n : ℕ) (h : 1 ≤ n) :
    trapezoidal f (n : ℤ) a b =
      Except.ok (some ((∑ i in Finset.range n,
        (f (gridPoint a b n (i + 1)) + f (gridPoint a b n i))) * (1/2) * ((b - a) / (n : ℚ)))) := by
  unfold trapezoidal
  rw [linspace_succ a b n h]
  have hdrop : (((List.range (n + 1)).map (gridPoint a b n)).drop 1)
      = (List.range n).map (fun i => gridPoint a b n (i + 1)) := by
    rw [List.range_succ_eq_map]
    simp [List.map_map, Function.comp_def]
  have hlast : (((List.range (n + 1)).map (gridPoint a b n)).dropLast)
      = (List.range n).map (gridPoint a b n) := by
    rw [List.range_succ]
    simp
  simp only [hdrop, hlast, List.zip_map', List.map_map, Option.map_some', Function.comp_def,
    sum_map_range]

lemma simpson_eval (f : ℚ → ℚ) (a b : ℚ) (n : ℕ) :
    simpson f (n : ℤ) a b =
      Except.ok (∑ i in Finset.range (n / 2),
        ((b - a) / (n : ℚ)) * (f (gridPoint a b n (2 * i)) + 4 * f (gridPoint a b n (2 * i + 1))
          + f (gridPoint a b n (2 * i + 2))) / 3) := by
  match n with
  | 0 => norm_num [simpson, linspace]
  | Nat.succ m =>
    have hfd : (((m + 1 : ℕ) : ℤ).fdiv 2).toNat = (m + 1) / 2 := rfl
    unfold simpson
    rw [linspace_succ a b (m + 1) (by omega)]
    simp only [hfd, Option.getD_some]
    congr 1
    rw [sum_map_range]
    refine Finset.sum_congr rfl (fun i hi => ?_)
    have hi' : i < (m + 1) / 2 := Finset.mem_range.mp hi
    have h0 : 2 * i < m + 1 + 1 := by omega
    have h1 : 2 * i + 1 < m + 1 + 1 := by omega
    have h2 : 2 * i + 2 < m + 1 + 1 := by omega
    rw [getD_range_map _ _ _ h0, getD_range_map _ _ _ h1, getD_range_map _ _ _ h2]

lemma bode_eval (f : ℚ → ℚ) (a b : ℚ) (n : ℕ) :
    bode f (n : ℤ) a b =
      Except.ok (∑ i in Finset.range (n / 4),
        ((b - a) / (n : ℚ)) * (14 * f (gridPoint a b n (4 * i))
          + 64 * f (gridPoint a b n (4 * i + 1)) + 24 * f (gridPoint a b n (4 * i + 2))
          + 64 * f (gridPoint a b n (4 * i + 3)) + 14 * f (gridPoint a b n (4 * i + 4))) / 45) := by
  match n with
  | 0 => norm_num [bode, linspace]
  | Nat.succ m =>
    have hfd : (((m + 1 : ℕ) : ℤ).fdiv 4).toNat = (m + 1) / 4 := rfl
    unfold bode
    rw [linspace_succ a b (m + 1) (by omega)]
    simp only [hfd, Option.getD_some]
    congr 1
    rw [sum_map_range]
    refine Finset.sum_congr rfl (fun i hi => ?_)
    have hi' : i < (m + 1) / 4 := Finset.mem_range.mp hi
    have h0 : 4 * i < m + 1 + 1 := by omega
    have h1 : 4 * i + 1 < m + 1 + 1 := by omega
    have h2 : 4 * i + 2 < m + 1 + 1 := by omega
    have h3 : 4 * i + 3 < m + 1 + 1 := by omega
    have h4 : 4 * i + 4 < m + 1 + 1 := by omega
    rw [getD_range_map _ _ _ h0, getD_range_map _ _ _ h1, getD_range_map _ _ _ h2,
      getD_range_map _ _ _ h3, getD_range_map _ _ _ h4]

lemma gridPoint_zero (a b : ℚ) (n : ℕ) : gridPoint a b n 0 = a := by
  simp [gridPoint]

lemma gridPoint_last (a b : ℚ) (n : ℕ) (hn : n ≠ 0) : gridPoint a b n n = b := by
  have h : (n : ℚ) ≠ 0 := Nat.cast_ne_zero.mpr hn
  field_simp [gridPoint]

lemma gridPoint_succ (a b : ℚ) (n : ℕ) (hn : n ≠ 0) (k : ℕ) :
    gridPoint a b n (k + 1) = gridPoint a b n k + (b - a) / (n : ℚ) := by
  have h : (n : ℚ) ≠ 0 := Nat.cast_ne_zero.mpr hn
  unfold gridPoint
  field_simp
  ring

/-! ### Claim theorems -/

/-- C3: for every integrand `f`, every `N ≥ 1` and bounds `a`, `b`, the
trapezoidal rule builds the `N + 1` equally spaced points `X₀..X_N` with
`X₀ = a`, `X_N = b` and step `Δx = (b - a) / N`, and returns
`(Δx / 2) · Σᵢ₌₀^{N−1} (f Xᵢ + f Xᵢ₊₁)`. -/
theorem trapezoidal_formula (f : ℚ → ℚ) (a b : ℚ) (n : ℕ) (h : 1 ≤ n) :
    linspace a b ((n : ℤ) + 1) =
      Except.ok ((List.range (n + 1)).map (gridPoint a b n), some ((b - a) / (n : ℚ)))
    ∧ gridPoint a b n 0 = a ∧ gridPoint a b n n = b
    ∧ trapezoidal f (n : ℤ) a b =
      Except.ok (some (((b - a) / (n : ℚ)) / 2 *
        ∑ i in Finset.range n, (f (gridPoint a b n i) + f (gridPoint a b n (i + 1))))) := by
  have hn : (n : ℚ) ≠ 0 := Nat.cast_ne_zero.mpr (by omega)
  refine ⟨linspace_succ a b n h, by simp [gridPoint], by field_simp [gridPoint], ?_⟩
  have hsum : ∑ i in Finset.range n, (f (gridPoint a b n (i + 1)) + f (gridPoint a b n i))
      = ∑ i in Finset.range n, (f (gridPoint a b n i) + f (gridPoint a b n (i + 1))) :=
    Finset.sum_congr rfl (fun i _ => add_comm _ _)
  rw [trapezoidal_eval f a b n h, hsum]
  congr 2
  ring

theorem trapezoidal_formula_witness :
    trapezoidal (fun x : ℚ => x) 1 0 1 = Except.ok (some (1/2)) := by
  have h := (trapezoidal_formula (fun x => x) 0 1 1 (by norm_num)).2.2.2
  norm_num [Finset.sum_range_succ, gridPoint] at h
  exact h

/-- C4: for every integrand `f`, even `N = 2n ≥ 2` and bounds `a`, `b`,
`simpson` partitions `[a, b]` into `n = N / 2` pairs of adjacent
sub-intervals and returns `Σ (Δx / 3) (f x₀ + 4 f x₁ + f x₂)` over the pairs,
with `Δx = (b - a) / N`. -/
theorem simpson_pairs_formula (f : ℚ → ℚ) (a b : ℚ) (n : ℕ) (_h : 1 ≤ n) :
    simpson f (2 * (n : ℤ)) a b =
      Except.ok (∑ i in Finset.range n, ((b - a) / (2 * (n : ℚ))) / 3 *
        (f (gridPoint a b (2 * n) (2 * i)) + 4 * f (gridPoint a b (2 * n) (2 * i + 1))
          + f (gridPoint a b (2 * n) (2 * i + 2)))) := by
  have hcast : (2 * (n : ℤ)) = ((2 * n : ℕ) : ℤ) := by push_cast; ring
  have hdiv : 2 * n / 2 = n := Nat.mul_div_cancel_left n (by norm_num)
  rw [hcast, simpson_eval, hdiv]
  refine congrArg Except.ok (Finset.sum_congr rfl fun i _ => ?_)
  push_cast
  ring

theorem simpson_pairs_formula_witness :
    simpson (fun x : ℚ => x) 2 0 1 = Except.ok (1/2) := by
  have h := simpson_pairs_formula (fun x => x) 0 1 1 (by norm_num)
  norm_num [Finset.sum_range_succ, gridPoint] at h
  exact h

/-- C5: for every integrand `f`, `N = 4n` a positive multiple of 4 and bounds
`a`, `b`, `bode` partitions `[a, b]` into `n = N / 4` groups of 5 consecutive
points `x₀..x₄` and returns
`Σ (Δx / 45) (14 f x₀ + 64 f x₁ + 24 f x₂ + 64 f x₃ + 14 f x₄)` over the
groups, with `Δx = (b - a) / N`. -/
theorem bode_groups_formula (f : ℚ → ℚ) (a b : ℚ) (n : ℕ) (_h : 1 ≤ n) :
    bode f (4 * (n : ℤ)) a b =
      Except.ok (∑ i in Finset.range n, ((b - a) / (4 * (n : ℚ))) / 45 *
        (14 * f (gridPoint a b (4 * n) (4 * i)) + 64 * f (gridPoint a b (4 * n) (4 * i + 1))
          + 24 * f (gridPoint a b (4 * n) (4 * i + 2)) + 64 * f (gridPoint a b (4 * n) (4 * i + 3))
          + 14 * f (gridPoint a b (4 * n) (4 * i + 4)))) := by
  have hcast : (4 * (n : ℤ)) = ((4 * n : ℕ) : ℤ) := by push_cast; ring
  have hdiv : 4 * n / 4 = n := Nat.mul_div_cancel_left n (by norm_num)
  rw [hcast, bode_eval, hdiv]
  refine congrArg Except.ok (Finset.sum_congr rfl fun i _ => ?_)
  push_cast
  ring

theorem bode_groups_formula_witness :
    bode (fun x : ℚ => x) 4 0 1 = Except.ok (1/2) := by
  have h := bode_groups_formula (fun x => x) 0 1 1 (by norm_num)
  norm_num [Finset.sum_range_succ, gridPoint] at h
  exact h

/-- C6: for every integrand `f`, `N ≥ 1`, bounds `a`, `b` and kind in
{left, middle, right}, `RiemannSum` returns `Δx · Σ f xᵢ` over exactly `N`
sample points, with `xᵢ = a + i Δx` for left, `xᵢ = a + (i + 1) Δx` for
right, and `xᵢ = a + (i + 0.5) Δx` for middle, where `Δx = (b - a) / N`. -/
theorem riemannSum_kinds_formula (f : ℚ → ℚ) (a b : ℚ) (n : ℕ) (h : 1 ≤ n) :
    RiemannSum f (n : ℤ) a b "left" =
      Except.ok (((b - a) / (n : ℚ)) * ∑ i in Finset.range n, f (a + i * ((b - a) / (n : ℚ))))
    ∧ RiemannSum f (n : ℤ) a b "right" =
      Except.ok (((b - a) / (n : ℚ)) *
        ∑ i in Finset.range n, f (a + ((i : ℚ) + 1) * ((b - a) / (n : ℚ))))
    ∧ RiemannSum f (n : ℤ) a b "mid" =
      Except.ok (((b - a) / (n : ℚ)) *
        ∑ i in Finset.range n, f (a + ((i : ℚ) + 1/2) * ((b - a) / (n : ℚ)))) := by
  have hne : (n : ℤ) ≠ 0 := by omega
  refine ⟨?_, ?_, ?_⟩
  · norm_num [RiemannSum, hne, List.map_map, Function.comp_def, sum_map_range]
    rw [mul_comm]
    exact congrArg _ (Finset.sum_congr rfl fun i _ => congrArg f (by ring))
  · norm_num [RiemannSum, hne, List.map_map, Function.comp_def, sum_map_range,
      if_neg (show ¬ ('r' = 'l') by decide)]
    rw [mul_comm]
    exact congrArg _ (Finset.sum_congr rfl fun i _ => congrArg f (by ring))
  · norm_num [RiemannSum, hne, List.map_map, Function.comp_def, sum_map_range,
      if_neg (show ¬ ('m' = 'l') by decide), if_neg (show ¬ ('m' = 'r') by decide)]
    rw [mul_comm]
    exact congrArg _ (Finset.sum_congr rfl fun i _ => congrArg f (by ring))

theorem riemannSum_kinds_formula_witness :
    RiemannSum (fun x : ℚ => x) 2 0 1 "left" = Except.ok (1/4)
    ∧ RiemannSum (fun x : ℚ => x) 2 0 1 "right" = Except.ok (3/4)
    ∧ RiemannSum (fun x : ℚ => x) 2 0 1 "mid" = Except.ok (1/2) := by
  have h := riemannSum_kinds_formula (fun x => x) 0 1 2 (by norm_num)
  norm_num [Finset.sum_range_succ] at h
  exact h

/-- C8: over exact arithmetic the pairwise form
`(Δx / 2) · Σᵢ₌₀^{N−1} (f Xᵢ + f Xᵢ₊₁)` that `trapezoidal` computes equals
the closed form `Δx · (f X₀ / 2 + f X₁ + ... + f X_{N−1} + f X_N / 2)`:
`trapezoidal` returns exactly that closed form. -/
theorem trapezoidal_closed_form (f : ℚ → ℚ) (a b : ℚ) (n : ℕ) (h : 1 ≤ n) :
    trapezoidal f (n : ℤ) a b =
      Except.ok (some (((b - a) / (n : ℚ)) * (f (gridPoint a b n 0) / 2
        + (∑ i in Finset.range (n - 1), f (gridPoint a b n (i + 1)))
        + f (gridPoint a b n n) / 2))) := by
  obtain ⟨k, rfl⟩ : ∃ k, n = k + 1 := ⟨n - 1, by omega⟩
  rw [trapezoidal_eval f a b (k + 1) h]
  congr 2
  have h1 : ∑ i in Finset.range (k + 1),
        (f (gridPoint a b (k + 1) (i + 1)) + f (gridPoint a b (k + 1) i))
      = ∑ i in Finset.range (k + 1), f (gridPoint a b (k + 1) (i + 1))
        + ∑ i in Finset.range (k + 1), f (gridPoint a b (k + 1) i) :=
    Finset.sum_add_distrib
  have h2 : ∑ i in Finset.range (k + 1), f (gridPoint a b (k + 1) (i + 1))
      = (∑ i in Finset.range k, f (gridPoint a b (k + 1) (i + 1)))
        + f (gridPoint a b (k + 1) (k + 1)) := Finset.sum_range_succ _ k
  have h3 : ∑ i in Finset.range (k + 1), f (gridPoint a b (k + 1) i)
      = (∑ i in Finset.range k, f (gridPoint a b (k + 1) (i + 1)))
        + f (gridPoint a b (k + 1) 0) := Finset.sum_range_succ' _ k
  rw [h1, h2, h3, show k + 1 - 1 = k from rfl]
  ring

theorem trapezoidal_closed_form_witness :
    trapezoidal (fun x : ℚ => x) 2 0 1 = Except.ok (some (1/2)) := by
  have h := trapezoidal_closed_form (fun x => x) 0 1 2 (by norm_num)
  norm_num [Finset.sum_range_succ, gridPoint] at h
  exact h

/-- C9: for every odd `N ≥ 1`, `simpson` returns (without error) the
composite Simpson sum over only the first `2 ⌊N/2⌋` sub-intervals with step
`Δx = (b − a) / N`, so the final sub-interval contributes nothing; likewise,
for `N` not a multiple of 4, `bode` sums only the first `4 ⌊N/4⌋`
sub-intervals. -/
theorem simpson_bode_floor_truncation (f : ℚ → ℚ) (a b : ℚ) (m k : ℕ)
    (_hm : Odd m) (_hk : ¬ 4 ∣ k) :
    simpson f (m : ℤ) a b =
      Except.ok (∑ i in Finset.range (m / 2),
        ((b - a) / (m : ℚ)) * (f (gridPoint a b m (2 * i)) + 4 * f (gridPoint a b m (2 * i + 1))
          + f (gridPoint a b m (2 * i + 2))) / 3)
    ∧ bode f (k : ℤ) a b =
      Except.ok (∑ i in Finset.range (k / 4),
        ((b - a) / (k : ℚ)) * (14 * f (gridPoint a b k (4 * i))
          + 64 * f (gridPoint a b k (4 * i + 1)) + 24 * f (gridPoint a b k (4 * i + 2))
          + 64 * f (gridPoint a b k (4 * i + 3)) + 14 * f (gridPoint a b k (4 * i + 4))) / 45) :=
  ⟨simpson_eval f a b m, bode_eval f a b k⟩

theorem simpson_bode_floor_truncation_witness :
    simpson (fun x : ℚ => x) 7 0 1 = Except.ok (18/49)
    ∧ bode (fun x : ℚ => x) 6 0 1 = Except.ok (2/9) := by
  have h := simpson_bode_floor_truncation (fun x => x) 0 1 7 6 ⟨3, by norm_num⟩ (by decide)
  norm_num [Finset.sum_range_succ, gridPoint] at h
  exact h

/-- C10: for every kind string `t` whose first character is neither `'l'` nor
`'r'`, `RiemannSum` computes the middle Riemann sum; the kind argument is
never validated, and no input string causes a kind-related error except the
empty string (which hits `IndexError` at `t[0]`). -/
theorem riemannSum_kind_fallback_middle (f : ℚ → ℚ) (a b : ℚ) (N : ℤ) (hN : N ≠ 0)
    (t : String) (c : Char) (rest : List Char) (ht : t.data = c :: rest)
    (hl : c ≠ 'l') (hr : c ≠ 'r') :
    RiemannSum f N a b t = RiemannSum f N a b "mid"
    ∧ (∀ t' : String, t'.data ≠ [] → ∃ q, RiemannSum f N a b t' = Except.ok q)
    ∧ RiemannSum f N a b "" = Except.error PyError.indexError := by
  refine ⟨?_, ?_, ?_⟩
  · unfold RiemannSum
    simp only [if_neg hN, ht, show "mid".data = 'm' :: 'i' :: 'd' :: [] from rfl,
      if_neg hl, if_neg hr, if_neg (show ¬ ('m' = 'l') by decide),
      if_neg (show ¬ ('m' = 'r') by decide)]
  · intro t' ht'
    obtain ⟨c', r', hts⟩ : ∃ c' r', t'.data = c' :: r' := by
      cases h' : t'.data with
      | nil => exact absurd h' ht'
      | cons x xs => exact ⟨x, xs, rfl⟩
    unfold RiemannSum
    rw [if_neg hN]
    simp only [hts]
    exact ⟨_, rfl⟩
  · unfold RiemannSum
    rw [if_neg hN]

theorem riemannSum_kind_fallback_middle_witness :
    RiemannSum (fun x : ℚ => x) 2 0 1 "banana" = RiemannSum (fun x : ℚ => x) 2 0 1 "mid"
    ∧ RiemannSum (fun x : ℚ => x) 2 0 1 "" = Except.error PyError.indexError := by
  have h := riemannSum_kind_fallback_middle (fun x => x) 0 1 2 (by norm_num) "banana" 'b'
    ['a', 'n', 'a', 'n', 'a'] rfl (by decide) (by decide)
  exact ⟨h.1, h.2.2⟩

/-- C7: over exact arithmetic, for every `N ≥ 1` and bounds `a ≤ b`, the
trapezoidal rule returns exactly `∫ₐᵇ f` when `f` is affine, and `simpson`
(with even `N = 2m ≥ 2`) returns exactly `∫ₐᵇ g` when `g` is a polynomial of
degree ≤ 3. -/
theorem exactness_low_degree (f g : ℚ → ℚ) (c₀ c₁ c₂ c₃ a b : ℚ) (n m : ℕ)
    (hn : 1 ≤ n) (hm : 1 ≤ m) (_hab : a ≤ b)
    (hf : ∀ x, f x = c₀ + c₁ * x)
    (hg : ∀ x, g x = c₀ + c₁ * x + c₂ * x^2 + c₃ * x^3) :
    trapezoidal f (n : ℤ) a b =
      Except.ok (some (c₀ * (b - a) + c₁ * (b^2 - a^2) / 2))
    ∧ simpson g (2 * (m : ℤ)) a b =
      Except.ok (c₀ * (b - a) + c₁ * (b^2 - a^2) / 2 + c₂ * (b^3 - a^3) / 3
        + c₃ * (b^4 - a^4) / 4) := by
  constructor
  · have hn0 : n ≠ 0 := by omega
    rw [trapezoidal_eval f a b n hn]
    congr 2
    set G : ℕ → ℚ := fun i =>
      c₀ * gridPoint a b n i + c₁ * (gridPoint a b n i)^2 / 2 with hG
    have key : ∀ i ∈ Finset.range n,
        (f (gridPoint a b n (i + 1)) + f (gridPoint a b n i)) * (1/2) * ((b - a) / (n : ℚ))
          = G (i + 1) - G i := by
      intro i _
      simp only [hG, hf]
      rw [gridPoint_succ a b n hn0 i]
      ring
    calc (∑ i in Finset.range n,
            (f (gridPoint a b n (i + 1)) + f (gridPoint a b n i))) * (1/2) * ((b - a) / (n : ℚ))
        = ∑ i in Finset.range n,
            (f (gridPoint a b n (i + 1)) + f (gridPoint a b n i)) * (1/2) * ((b - a) / (n : ℚ)) := by
          rw [Finset.sum_mul, Finset.sum_mul]
      _ = ∑ i in Finset.range n, (G (i + 1) - G i) := Finset.sum_congr rfl key
      _ = G n - G 0 := Finset.sum_range_sub G n
      _ = c₀ * (b - a) + c₁ * (b^2 - a^2) / 2 := by
          simp only [hG]
          rw [gridPoint_last a b n hn0, gridPoint_zero]
          ring
  · have h2m : 2 * m ≠ 0 := by omega
    rw [show (2 * (m : ℤ)) = ((2 * m : ℕ) : ℤ) by push_cast; ring, simpson_eval,
      Nat.mul_div_cancel_left m (by norm_num)]
    congr 1
    set Δ : ℚ := (b - a) / ((2 * m : ℕ) : ℚ) with hΔ
    set G : ℕ → ℚ := fun i =>
      c₀ * gridPoint a b (2 * m) (2 * i) + c₁ * (gridPoint a b (2 * m) (2 * i))^2 / 2
        + c₂ * (gridPoint a b (2 * m) (2 * i))^3 / 3
        + c₃ * (gridPoint a b (2 * m) (2 * i))^4 / 4 with hG
    have key : ∀ i ∈ Finset.range m,
        Δ * (g (gridPoint a b (2 * m) (2 * i)) + 4 * g (gridPoint a b (2 * m) (2 * i + 1))
          + g (gridPoint a b (2 * m) (2 * i + 2))) / 3 = G (i + 1) - G i := by
      intro i _
      have e1 : gridPoint a b (2 * m) (2 * i + 1) = gridPoint a b (2 * m) (2 * i) + Δ :=
        gridPoint_succ a b (2 * m) h2m (2 * i)
      have e2 : gridPoint a b (2 * m) (2 * i + 2) = gridPoint a b (2 * m) (2 * i) + Δ + Δ := by
        rw [show 2 * i + 2 = (2 * i + 1) + 1 from rfl, gridPoint_succ a b (2 * m) h2m (2 * i + 1),
          e1]
      have e3 : gridPoint a b (2 * m) (2 * (i + 1)) = gridPoint a b (2 * m) (2 * i) + Δ + Δ := by
        rw [show 2 * (i + 1) = 2 * i + 2 by ring]
        exact e2
      simp only [hG, hg]
      rw [e1, e2, e3]
      ring
    calc ∑ i in Finset.range m,
          Δ * (g (gridPoint a b (2 * m) (2 * i)) + 4 * g (gridPoint a b (2 * m) (2 * i + 1))
            + g (gridPoint a b (2 * m) (2 * i + 2))) / 3
        = ∑ i in Finset.range m, (G (i + 1) - G i) := Finset.sum_congr rfl key
      _ = G m - G 0 := Finset.sum_range_sub G m
      _ = c₀ * (b - a) + c₁ * (b^2 - a^2) / 2 + c₂ * (b^3 - a^3) / 3 + c₃ * (b^4 - a^4) / 4 := by
          simp only [hG]
          rw [show 2 * 0 = 0 from rfl, gridPoint_last a b (2 * m) h2m, gridPoint_zero]
          ring

theorem exactness_low_degree_witness :
    trapezoidal (fun x : ℚ => 1 + x) 1 0 1 = Except.ok (some (3/2))
    ∧ simpson (fun x : ℚ => 1 + x + x^2 + x^3) 2 0 1 = Except.ok (25/12) := by
  have h := exactness_low_degree (fun x => 1 + x) (fun x => 1 + x + x^2 + x^3) 1 1 1 1 0 1 1 1
    (by norm_num) (by norm_num) (by norm_num) (fun x => by ring) (fun x => by ring)
  norm_num at h
  exact h

/-- C1 counterexample: `simpson` called with the odd count `N = 7` and `bode`
called with `N = 6` (not a multiple of 4) do NOT fail with any error: both
return ordinary numeric results (here for the constant integrand 1 on
`[0, 1]`: `6/7` and `2/3` instead of the exact integral 1). -/
theorem simpson_bode_no_error_cex :
    simpson (fun _ : ℚ => 1) 7 0 1 = Except.ok (6/7)
    ∧ bode (fun _ : ℚ => 1) 6 0 1 = Except.ok (2/3) := by
  constructor
  · norm_num [simpson, linspace, List.range_succ, show ((7 : ℤ).fdiv 2).toNat = 3 from rfl,
      show ((8 : ℤ).toNat) = 8 from rfl]
  · norm_num [bode, linspace, List.range_succ, show ((6 : ℤ).fdiv 4).toNat = 1 from rfl,
      show ((7 : ℤ).toNat) = 7 from rfl]

/-- C1 amended: `simpson` with odd `N = 7` and `bode` with `N = 6` do not
report any `InvalidSubdivisionCount`-style error; each silently truncates the
partition, returning the composite sum over only the first `2 ⌊N/2⌋`
(resp. `4 ⌊N/4⌋`) sub-intervals. -/
theorem simpson_bode_truncate_instead_of_error (f : ℚ → ℚ) (a b : ℚ) :
    simpson f 7 a b = Except.ok (∑ i in Finset.range 3,
      ((b - a) / 7) * (f (gridPoint a b 7 (2 * i)) + 4 * f (gridPoint a b 7 (2 * i + 1))
        + f (gridPoint a b 7 (2 * i + 2))) / 3)
    ∧ bode f 6 a b = Except.ok (((b - a) / 6) * (14 * f (gridPoint a b 6 0)
      + 64 * f (gridPoint a b 6 1) + 24 * f (gridPoint a b 6 2) + 64 * f (gridPoint a b 6 3)
      + 14 * f (gridPoint a b 6 4)) / 45) := by
  constructor
  · have h := simpson_eval f a b 7
    norm_num at h
    exact h
  · have h := bode_eval f a b 6
    norm_num [Finset.sum_range_succ] at h
    exact h

/-- C2 counterexample: a subdivision count `N ≤ 0` is not reported as a
failure by every rule: `RiemannSum` with `N = -1` silently returns 0, and
`simpson`/`bode` with `N = 0` silently return 0. -/
theorem nonpositive_N_silent_cex :
    RiemannSum (fun _ : ℚ => 1) (-1) 0 1 "mid" = Except.ok 0
    ∧ simpson (fun _ : ℚ => 1) 0 0 1 = Except.ok 0
    ∧ bode (fun _ : ℚ => 1) 0 0 1 = Except.ok 0 := by
  refine ⟨?_, ?_, ?_⟩
  · norm_num [RiemannSum, show ((-1 : ℤ).toNat) = 0 from rfl]
  · norm_num [simpson, linspace, show ((0 : ℤ).fdiv 2).toNat = 0 from rfl]
  · norm_num [bode, linspace, show ((0 : ℤ).fdiv 4).toNat = 0 from rfl]

/-- C2 amended: no rule validates `N ≤ 0`.  `RiemannSum` silently returns 0
for every `N < 0` and every kind string, and raises `ZeroDivisionError`
(from computing the step, not an `InvalidSubdivisionCount` check) only at
`N = 0`; `simpson` and `bode` silently return 0 at `N = 0` and `N = -1`;
`trapezoidal` returns NaN at `N ∈ {0, -1}`; the linspace-based rules
(`trapezoidal`, `simpson`, `bode`) raise only for `N ≤ -2`, via the
`np.linspace` `ValueError`. -/
theorem nonpositive_N_not_rejected (f : ℚ → ℚ) (a b : ℚ) (N : ℤ) (h : N < 0)
    (t : String) (ht : t.data ≠ []) :
    RiemannSum f N a b t = Except.ok 0
    ∧ RiemannSum f 0 a b t = Except.error PyError.zeroDivisionError
    ∧ simpson f 0 a b = Except.ok 0
    ∧ simpson f (-1) a b = Except.ok 0
    ∧ bode f 0 a b = Except.ok 0
    ∧ bode f (-1) a b = Except.ok 0
    ∧ trapezoidal f 0 a b = Except.ok none
    ∧ trapezoidal f (-1) a b = Except.ok none
    ∧ (N ≤ -2 → trapezoidal f N a b = Except.error PyError.valueError
        ∧ simpson f N a b = Except.error PyError.valueError
        ∧ bode f N a b = Except.error PyError.valueError) := by
  obtain ⟨c, r, hts⟩ : ∃ c r, t.data = c :: r := by
    cases h' : t.data with
    | nil => exact absurd h' ht
    | cons x xs => exact ⟨x, xs, rfl⟩
  refine ⟨?_, ?_, ?_, ?_, ?_, ?_, ?_, ?_, ?_⟩
  · unfold RiemannSum
    rw [if_neg (by omega), Int.toNat_of_nonpos (le_of_lt h)]
    simp only [hts]
    split_ifs <;> simp
  · simp [RiemannSum]
  · norm_num [simpson, linspace, show ((0 : ℤ).fdiv 2).toNat = 0 from rfl]
  · norm_num [simpson, linspace, show ((-1 : ℤ) + 1) = 0 from rfl,
      show ((0 : ℤ).toNat) = 0 from rfl, show ((-1 : ℤ).fdiv 2).toNat = 0 from rfl]
  · norm_num [bode, linspace, show ((0 : ℤ).fdiv 4).toNat = 0 from rfl]
  · norm_num [bode, linspace, show ((-1 : ℤ) + 1) = 0 from rfl,
      show ((0 : ℤ).toNat) = 0 from rfl, show ((-1 : ℤ).fdiv 4).toNat = 0 from rfl]
  · norm_num [trapezoidal, linspace]
  · norm_num [trapezoidal, linspace, show ((-1 : ℤ) + 1) = 0 from rfl,
      show ((0 : ℤ).toNat) = 0 from rfl]
  · intro hN2
    have hlin : linspace a b (N + 1) = Except.error PyError.valueError := by
      unfold linspace
      rw [if_pos (by omega)]
    refine ⟨?_, ?_, ?_⟩
    · unfold trapezoidal
      rw [hlin]
    · unfold simpson
      rw [hlin]
    · unfold bode
      rw [hlin]

theorem nonpositive_N_not_rejected_witness :
    RiemannSum (fun _ : ℚ => 1) (-2) 0 1 "left" = Except.ok 0
    ∧ trapezoidal (fun _ : ℚ => 1) (-2) 0 1 = Except.error PyError.valueError
    ∧ simpson (fun _ : ℚ => 1) (-2) 0 1 = Except.error PyError.valueError
    ∧ bode (fun _ : ℚ => 1) (-2) 0 1 = Except.error PyError.valueError := by
  have h := nonpositive_N_not_rejected (fun _ => 1) 0 1 (-2) (by norm_num) "left" (by decide)
  have h9 := h.2.2.2.2.2.2.2.2 (by norm_num)
  exact ⟨h.1, h9.1, h9.2.1, h9.2.2⟩

end Phys305
